import Mathlib

/-
Verification of the MCPEval streaming client library.

The definitions below are a shallow embedding of the repository's
streaming pipeline:

* `src/src/clients/streaming-request.ts` — the zod schemas (ModelMessage,
  Generation, RequestBody, DoneResponseSchema).
* `src/src/clients/streaming-client.ts` — the type guards
  `isEventResponse` / `isDoneResponse`, `OpenAIStreamingClient.chat`,
  `OpenAIStreamingClient.processGeneration`, and
  `EinsteinDevModelClient.chat` (generation accumulation and the final
  aggregated result).
* `src/src/clients/chatcompletion-client.ts` — `LLMExpressModelClient.chat`.
* `src/src/streaming-client.ts` — `OpenAIStreamingWebClient.parseSSEData`.

JavaScript runtime behavior is modelled explicitly: `typeof x === 'object'`
is true for null, arrays and objects; the `in` operator and member access
throw a TypeError on null; member access on a primitive yields undefined
(modelled as `Option.none`); truthiness follows the ECMAScript ToBoolean
rules; `Object.values` lists properties whose keys are canonical array
indices first in ascending numeric order, then the remaining string keys
in insertion order.
-/

/-- JSON-like runtime value, modelling the untyped chunks the transport
delivers to `processGeneration` and the documents built by the clients. -/
inductive Json where
  | str : String → Json
  | num : Int → Json
  | bool : Bool → Json
  | null : Json
  | arr : List Json → Json
  | obj : List (String × Json) → Json

/-- Role enum of `ModelMessageSchema` (streaming-request.ts line 5). -/
inductive Role where
  | user
  | assistant
  | system
deriving DecidableEq, Repr

/-- ModelMessage from `ModelMessageSchema` (streaming-request.ts lines 4-7). -/
structure ModelMessage where
  role : Role
  content : String
deriving DecidableEq, Repr

/-- ToolInvocation from `ToolInvocationSchema` (streaming-request.ts lines 23-29);
the nested `function` object is flattened into its two string fields. -/
structure ToolInvocation where
  id : String
  name : String
  arguments : String
deriving DecidableEq, Repr

/-- Nested `parameters` object of `GenerationSchema`
(streaming-request.ts lines 39-43).  JavaScript numbers are modelled
as `Int` (no claim does arithmetic on them). -/
structure GenParams where
  finish_reason : Option String
  index : Int
  logprobs : Option Int
deriving DecidableEq, Repr

/-- Generation from `GenerationSchema` (streaming-request.ts lines 36-47):
a ModelMessage extended with id, timestamp, parameters and tool invocations.
The two always-null fields (generation_safety_score,
generation_content_quality) carry no information and are not stored. -/
structure Generation where
  id : String
  role : Role
  content : String
  timestamp : Option Int
  parameters : GenParams
  tool_invocations : Option (List ToolInvocation)
deriving DecidableEq, Repr

/-- Lookup of a key on a JSON object list, first match wins. -/
def findKV (kvs : List (String × Json)) (k : String) : Option Json :=
  (kvs.find? (fun kv => kv.1 == k)).map (fun kv => kv.2)

/-- JavaScript `typeof x === 'object'`: true for null, arrays and objects. -/
def typeofIsObject : Json → Bool
  | .null => true
  | .arr _ => true
  | .obj _ => true
  | _ => false

/-- JavaScript `x === s` for a string literal `s`. -/
def isStrEq (j : Json) (s : String) : Bool :=
  match j with
  | .str t => t == s
  | _ => false

/-- JavaScript `k in x` for the fixed literal keys event, data and
generation_details: throws a TypeError on null and on primitives, checks
own-key presence on objects — faithful for these keys because none of
them is an Object.prototype property name or an array index (so the
prototype chain contributes nothing and the check is false on arrays). -/
def jsInE (k : String) (j : Json) : Except Unit Bool :=
  match j with
  | .obj kvs => .ok (kvs.any (fun kv => kv.1 == k))
  | .arr _ => .ok false
  | _ => .error ()

/-- JavaScript member access `x.k`: throws a TypeError on null, yields
undefined (`none`) on primitives and on arrays (for non-index keys),
looks the key up on objects. -/
def Json.member (j : Json) (k : String) : Except Unit (Option Json) :=
  match j with
  | .null => .error ()
  | .obj kvs => .ok (findKV kvs k)
  | _ => .ok none

/-- ECMAScript ToBoolean of a possibly-undefined value. -/
def truthy : Option Json → Bool
  | none => false
  | some .null => false
  | some (.str s) => !(s == "")
  | some (.num n) => !(n == 0)
  | some (.bool b) => b
  | some (.arr _) => true
  | some (.obj _) => true

/-- Type guard `isEventResponse` (clients/streaming-client.ts lines 31-41):
the short-circuit conjunction typeof chunk is object, chunk not null,
has event and data keys, event equals generation, typeof data is object,
and generation_details in data — the last step throws when data is null. -/
def isEventResponse (chunk : Json) : Except Unit Bool :=
  match chunk with
  | .obj kvs =>
    match findKV kvs "event", findKV kvs "data" with
    | some ev, some dat =>
      if isStrEq ev "generation" then
        if typeofIsObject dat then
          jsInE "generation_details" dat
        else
          .ok false
      else
        .ok false
    | _, _ => .ok false
  | _ => .ok false

/-- Type guard `isDoneResponse` (clients/streaming-client.ts lines 43-52):
event equals generation and data is the literal string DONE.  No step of
this guard can throw. -/
def isDoneResponse (chunk : Json) : Bool :=
  match chunk with
  | .obj kvs =>
    match findKV kvs "event", findKV kvs "data" with
    | some ev, some dat => isStrEq ev "generation" && isStrEq dat "DONE"
    | _, _ => false
  | _ => false

/-- Zod string field: accepts exactly strings. -/
def zodString : Json → Option String
  | .str s => some s
  | _ => none

/-- Zod number field (modelled over Int). -/
def zodNumber : Json → Option Int
  | .num n => some n
  | _ => none

/-- Zod nullable number field. -/
def zodNullableNumber : Json → Option (Option Int)
  | .null => some none
  | .num n => some (some n)
  | _ => none

/-- Zod nullable string field. -/
def zodNullableString : Json → Option (Option String)
  | .null => some none
  | .str s => some (some s)
  | _ => none

/-- Zod null literal field. -/
def zodNull : Json → Option Unit
  | .null => some ()
  | _ => none

/-- Zod role enum of `ModelMessageSchema`. -/
def parseRole : Json → Option Role
  | .str "user" => some .user
  | .str "assistant" => some .assistant
  | .str "system" => some .system
  | _ => none

/-- Field fetch for zod object parsing: a missing key (undefined) fails,
as does application to a non-object, matching zod's handling of required
fields on `z.object` schemas. -/
def zodField (j : Json) (k : String) : Option Json :=
  match j with
  | .obj kvs => findKV kvs k
  | _ => none

/-- Parse of one element of `ToolInvocationSchema`. -/
def zodToolInvocation (j : Json) : Option ToolInvocation := do
  let i ← zodField j "id" >>= zodString
  let fn ← zodField j "function"
  let nm ← zodField fn "name" >>= zodString
  let args ← zodField fn "arguments" >>= zodString
  pure ⟨i, nm, args⟩

/-- Model of `GenerationSchema.parse` (streaming-request.ts lines 36-47):
returns the validated Generation, or fails (zod throws) when any required
field is missing or of the wrong shape. -/
def zodGeneration (j : Json) : Option Generation := do
  let role ← zodField j "role" >>= parseRole
  let content ← zodField j "content" >>= zodString
  let i ← zodField j "id" >>= zodString
  let timestamp ← zodField j "timestamp" >>= zodNullableNumber
  let params ← zodField j "parameters"
  let finishReason ← zodField params "finish_reason" >>= zodNullableString
  let index ← zodField params "index" >>= zodNumber
  let logprobs ← zodField params "logprobs" >>= zodNullableNumber
  let _ ← zodField j "generation_safety_score" >>= zodNull
  let _ ← zodField j "generation_content_quality" >>= zodNull
  let ti ← zodField j "tool_invocations"
  let toolInvocations ←
    match ti with
    | .null => some none
    | .arr xs => (xs.mapM zodToolInvocation).map some
    | _ => none
  pure ⟨i, role, content, timestamp, ⟨finishReason, index, logprobs⟩, toolInvocations⟩

/-- Notification delivered to the registered callbacks of
`OpenAIStreamingClient.chat`: the emitter events chunk, generation,
content, error and end.  Errors are identified by their message. -/
inductive Ev where
  | chunk : Json → Ev
  | generation : Generation → Ev
  | content : String → Ev
  | error : String → Ev
  | end_ : Ev

/-- Recognizer for end notifications. -/
def isEndEv : Ev → Bool
  | .end_ => true
  | _ => false

/-- Recognizer for error notifications. -/
def isErrorEv : Ev → Bool
  | .error _ => true
  | _ => false

/-- Recognizer for generation or content notifications. -/
def isGenOrContentEv : Ev → Bool
  | .generation _ => true
  | .content _ => true
  | _ => false

/-- Access path `chunk.data.generation_details.generations` evaluated in
`processGeneration` (clients/streaming-client.ts line 152) after
`isEventResponse` returned true: member access that throws on null and
yields undefined past primitives.  Accessing a property of undefined
also throws. -/
def getGenerations (chunk : Json) : Except Unit (Option Json) := do
  let dat ← chunk.member "data"
  match dat with
  | none => .error ()
  | some d => do
    let gd ← d.member "generation_details"
    match gd with
    | none => .error ()
    | some g => g.member "generations"

/-- Loop body of `processGeneration` over the generations array
(clients/streaming-client.ts lines 153-161): each element is validated by
`GenerationSchema.parse` (throwing stops the whole stream), the validated
generation is emitted, and a content notification follows when the
content is a non-empty string.  Returns the emitted events and whether a
parse failure threw. -/
def emitGenerations : List Json → List Ev × Bool
  | [] => ([], false)
  | e :: rest =>
    match zodGeneration e with
    | none => ([], true)
    | some g =>
      let contentEvs := if g.content == "" then [] else [Ev.content g.content]
      let r := emitGenerations rest
      (Ev.generation g :: (contentEvs ++ r.1), r.2)

/-- Model of `OpenAIStreamingClient.processGeneration`
(clients/streaming-client.ts lines 146-168): emit the chunk notification,
then classify.  An event response iterates its generations when the value
is truthy (a truthy non-array makes the for-of loop or the first parse
throw); a done response emits end; anything else is dropped.  Returns the
events emitted and whether the call threw. -/
def processGeneration (chunk : Json) : List Ev × Bool :=
  let base := [Ev.chunk chunk]
  match isEventResponse chunk with
  | .error _ => (base, true)
  | .ok true =>
    match getGenerations chunk with
    | .error _ => (base, true)
    | .ok gensOpt =>
      if truthy gensOpt then
        match gensOpt with
        | some (.arr elems) =>
          let r := emitGenerations elems
          (base ++ r.1, r.2)
        | _ => (base, true)
      else
        (base, false)
  | .ok false =>
    if isDoneResponse chunk then (base ++ [Ev.end_], false)
    else (base, false)

/-- The for-await loop of `OpenAIStreamingClient.chat`
(clients/streaming-client.ts lines 132-134): chunks are processed in
order; a throw inside `processGeneration` stops the loop, discarding the
remaining chunks. -/
def runChunks : List Json → List Ev × Bool
  | [] => ([], false)
  | c :: cs =>
    let p := processGeneration c
    if p.2 then (p.1, true)
    else
      let r := runChunks cs
      (p.1 ++ r.1, r.2)

/-- Notification trace of one `OpenAIStreamingClient.chat` call
(clients/streaming-client.ts lines 120-141) over a stream that delivered
`chunks` and then either closed cleanly (`errored = false`) or raised a
transport error (`errored = true`, covering both a failure of `post` with
`chunks = []` and a mid-read failure).  The try block emits end after the
loop; the catch block emits only error. -/
def chatTrace (chunks : List Json) (errored : Bool) : List Ev :=
  let r := runChunks chunks
  if r.2 then r.1 ++ [Ev.error "stream error"]
  else if errored then r.1 ++ [Ev.error "stream error"]
  else r.1 ++ [Ev.end_]

/-- Classification a chunk receives inside `processGeneration`:
the branch taken by the if chain over the two type guards, with `thrown`
for the TypeError path of `isEventResponse` on a null data field. -/
inductive ChunkClass where
  | eventBatch
  | done
  | unrecognized
  | thrown
deriving DecidableEq, Repr

/-- Classifier induced by the guard chain of `processGeneration`
(clients/streaming-client.ts lines 150-167). -/
def classify (chunk : Json) : ChunkClass :=
  match isEventResponse chunk with
  | .error _ => .thrown
  | .ok true => .eventBatch
  | .ok false =>
    if isDoneResponse chunk then .done else .unrecognized

/-- Count of end notifications in a trace. -/
def countEnds (t : List Ev) : Nat := t.countP isEndEv

/-- Count of error notifications in a trace. -/
def countErrors (t : List Ev) : Nat := t.countP isErrorEv

/-- Count of chunks the classifier recognises as a done sentinel. -/
def doneCount (chunks : List Json) : Nat :=
  chunks.countP (fun c => decide (classify c = .done))

/-- True when processing every chunk of the list completes without a
throw (no TypeError and no zod parse failure). -/
def noThrow (chunks : List Json) : Bool :=
  chunks.all (fun c => !(processGeneration c).2)

/-- Caller options of `OpenAIStreamingClient.chat`
(clients/streaming-client.ts lines 93-101), restricted to the request
fields; the callbacks are modelled separately as the trace consumers. -/
structure ChatOptions where
  maxTokens : Option Int
  temperature : Option Int

/-- The generation_settings object of the outbound request body
(streaming-request.ts lines 9-12). -/
structure GenerationSettings where
  max_tokens : Int
  parameters : List (String × Json)

/-- Outbound RequestBody (streaming-request.ts lines 14-21) as built by
`OpenAIStreamingClient.chat`; the fields it does not set are omitted. -/
structure RequestBody where
  model : String
  messages : List ModelMessage
  temperature : Option Int
  generation_settings : GenerationSettings

/-- Request construction in `OpenAIStreamingClient.chat`
(clients/streaming-client.ts lines 103-129): destructuring with default
`maxTokens = 2048` followed by the request literal that places the value
in generation_settings.max_tokens. -/
def buildRequest (model : String) (params : List (String × Json))
    (messages : List ModelMessage) (o : ChatOptions) : RequestBody :=
  { model := model
    messages := messages
    temperature := o.temperature
    generation_settings :=
      { max_tokens := o.maxTokens.getD 2048
        parameters := params } }

/-- Property names every object literal inherits from Object.prototype
(including the Annex B accessor methods present in Node).  The JavaScript
`in` operator finds these on the prototype chain even though they are
never own keys of the registry. -/
def protoKeys : List String :=
  ["constructor", "hasOwnProperty", "isPrototypeOf", "propertyIsEnumerable",
   "toLocaleString", "toString", "valueOf", "__proto__",
   "__defineGetter__", "__defineSetter__", "__lookupGetter__", "__lookupSetter__"]

/-- One step of the `onGeneration` callback registered by
`EinsteinDevModelClient.chat` (clients/streaming-client.ts lines 190-196):
`generation.id in generations` consults the prototype chain, so it is
true when the id is an own key of the registry OR names an
Object.prototype property.  In the append branch an own entry (which
shadows the prototype) gets the incoming content appended; an id found
only on the prototype chain mutates the inherited object, which leaves
the registry's own properties — and hence `Object.values` — unchanged
and never creates an entry.  In the else branch (id neither own nor
inherited) the whole generation is stored as a new own property,
inserted at the end.  The prototype chain is modelled as the standard,
unmutated Object.prototype; the second-order chain mutation reachable
through an id __proto__ followed by an id content is outside the
model. -/
def onGenerationStep (m : List (String × Generation)) (g : Generation) :
    List (String × Generation) :=
  if m.any (fun kv => kv.1 == g.id) || protoKeys.contains g.id then
    m.map (fun kv =>
      if kv.1 == g.id then
        (kv.1, { kv.2 with content := kv.2.content ++ g.content })
      else kv)
  else
    m ++ [(g.id, g)]

/-- The generations registry after a list of generation events, starting
from the empty object. -/
def accumulate (evs : List Generation) : List (String × Generation) :=
  evs.foldl onGenerationStep []

/-- First entry of the registry with the given key. -/
def findEntry (m : List (String × Generation)) (i : String) : Option Generation :=
  (m.find? (fun kv => kv.1 == i)).map (fun kv => kv.2)

/-- Canonical array-index test of ECMAScript property ordering: a string
is an array index when it is the decimal representation of an integer
below 2^32 - 1 (digits only, no leading zero except the string 0, no
sign).  Returns the index. -/
def arrayIndexOf (s : String) : Option Nat :=
  match s.data with
  | [] => none
  | c :: rest =>
    if (c :: rest).all Char.isDigit && (!(c == '0') || rest.isEmpty) then
      let n := (c :: rest).foldl (fun a d => a * 10 + (d.toNat - 48)) 0
      if n < 4294967295 then some n else none
    else none

/-- Ascending insertion by numeric key, used to model the array-index
portion of ECMAScript property ordering. -/
def insertByKey (p : Nat × Generation) :
    List (Nat × Generation) → List (Nat × Generation)
  | [] => [p]
  | q :: rest =>
    if p.1 ≤ q.1 then p :: q :: rest
    else q :: insertByKey p rest

/-- Insertion sort by numeric key. -/
def sortByKey : List (Nat × Generation) → List (Nat × Generation)
  | [] => []
  | p :: rest => insertByKey p (sortByKey rest)

/-- Model of `Object.values(generations)`
(clients/streaming-client.ts line 212) under the ECMAScript own-property
ordering: values of array-index keys first in ascending numeric order,
then values of the remaining string keys in insertion order. -/
def objectValues (m : List (String × Generation)) : List Generation :=
  let idx := m.filterMap (fun kv => (arrayIndexOf kv.1).map (fun n => (n, kv.2)))
  let rest := m.filter (fun kv => (arrayIndexOf kv.1).isNone)
  (sortByKey idx).map (fun p => p.2) ++ rest.map (fun kv => kv.2)

/-- Result type of the model clients
(streaming-response.ts: error and messages, each nullable). -/
structure EinsteinResult where
  error : Option String
  messages : Option (List ModelMessage)
deriving DecidableEq, Repr

/-- Aggregation state of `EinsteinDevModelClient.chat`
(clients/streaming-client.ts lines 184-186): the generations registry,
the concatenated fullResponse, and the captured error. -/
structure AggSt where
  generations : List (String × Generation)
  fullResponse : String
  error : Option String

/-- Effect of one delivered notification on the aggregation state: the
three registered callbacks of `EinsteinDevModelClient.chat`
(clients/streaming-client.ts lines 190-202).  The error callback
overwrites the captured error unconditionally. -/
def einsteinStep (s : AggSt) : Ev → AggSt
  | .generation g => { s with generations := onGenerationStep s.generations g }
  | .content c => { s with fullResponse := s.fullResponse ++ c }
  | .error e => { s with error := some e }
  | _ => s

/-- Model of `EinsteinDevModelClient.chat`
(clients/streaming-client.ts lines 182-217) as a function of the
delivered notification trace: fold the callbacks, then return the error
with null messages when one was captured, else null error with the
messages obtained from `Object.values` of the registry. -/
def einsteinChat (trace : List Ev) : EinsteinResult :=
  let s := trace.foldl einsteinStep ⟨[], "", none⟩
  match s.error with
  | some e => ⟨some e, none⟩
  | none =>
    ⟨none, some ((objectValues s.generations).map
      (fun g => ⟨g.role, g.content⟩))⟩

/-- Errors among a delivered trace, in delivery order. -/
def errorsOf (trace : List Ev) : List String :=
  trace.filterMap (fun e =>
    match e with
    | .error m => some m
    | _ => none)

/-- Outbound request of `LLMExpressModelClient.chat`
(chatcompletion-client.ts lines 26-36): HTTP method and JSON body. -/
structure LLMExpressRequest where
  method : String
  model : String
  messages : List ModelMessage
  stream : Bool
deriving DecidableEq, Repr

/-- Result of `LLMExpressModelClient.chat`: error and messages, each
nullable; the success value is the content string of the response
document (the code assigns it to messages unchanged). -/
structure LLMExpressResult where
  error : Option String
  messages : Option String
deriving DecidableEq, Repr

/-- The fetch response as seen by `LLMExpressModelClient.chat`: the ok
flag, the statusText used in the failure message, and — per the
documented response shape — the content of choices[0].message of the
returned JSON document. -/
structure FetchResponse where
  ok : Bool
  statusText : String
  content : String

/-- Request built by `LLMExpressModelClient.chat`
(chatcompletion-client.ts lines 26-36): a POST whose body is the literal
with model, messages and stream false. -/
def llmExpressRequest (model : String) (messages : List ModelMessage) :
    LLMExpressRequest :=
  { method := "POST", model := model, messages := messages, stream := false }

/-- Result of `LLMExpressModelClient.chat`
(chatcompletion-client.ts lines 38-44): non-ok responses produce the
failure error and null messages; ok responses produce null error and the
content of choices[0].message. -/
def llmExpressChat (resp : FetchResponse) : LLMExpressResult :=
  if resp.ok then ⟨none, some resp.content⟩
  else ⟨some ("Failed to chat: " ++ resp.statusText), none⟩

/-- SSE chunk produced by `parseSSEData` (streaming-client.ts lines 53-56). -/
structure SSEChunk where
  event : String
  data : Json

/-- JavaScript `s.trim()`, on the character list: strip leading and
trailing whitespace. -/
def trimChars (cs : List Char) : List Char :=
  ((cs.dropWhile Char.isWhitespace).reverse.dropWhile Char.isWhitespace).reverse

/-- JavaScript `s.split('\n')`: split at every newline, keeping empty
pieces. -/
def splitOnNl : List Char → List (List Char)
  | [] => [[]]
  | c :: rest =>
    let r := splitOnNl rest
    if c == '\n' then [] :: r
    else
      match r with
      | [] => [[c]]
      | h :: t => (c :: h) :: t

/-- JavaScript `line.startsWith(p)` for an ASCII prefix. -/
def strStartsWith (line p : String) : Bool :=
  p.data.isPrefixOf line.data

/-- JavaScript `line.substring(n)` for an ASCII prefix length. -/
def strDropN (line : String) (n : Nat) : String :=
  String.mk (line.data.drop n)

/-- The line scan of `parseSSEData` (streaming-client.ts lines 86-92):
fold over the lines keeping the payload of the last event line and the
last data line. -/
def scanSSELines (lines : List String) : String × String :=
  lines.foldl
    (fun acc line =>
      if strStartsWith line "event: " then (strDropN line 7, acc.2)
      else if strStartsWith line "data: " then (acc.1, strDropN line 6)
      else acc)
    ("", "")

/-- Model of `OpenAIStreamingWebClient.parseSSEData`
(streaming-client.ts lines 80-103), parameterised by the external
JSON.parse collaborator (`parse s = none` models a throw on malformed
text).  The input is trimmed and split at newlines, the lines are
scanned for the last event and data payloads, and when both are
non-empty the data payload is parsed.  Returns the chunk, when one is
produced, together with the error notifications emitted: a parse failure
is caught, logged, emits an error event, and yields null. -/
def parseSSEData (parse : String → Option Json) (s : String) :
    Option SSEChunk × List Ev :=
  let lines := (splitOnNl (trimChars s.data)).map String.mk
  let ed := scanSSELines lines
  if ed.1 ≠ "" ∧ ed.2 ≠ "" then
    match parse ed.2 with
    | some j => (some ⟨ed.1, j⟩, [])
    | none => (none, [Ev.error "sse parse error"])
  else
    (none, [])

/-- Follows the spec's words for the GenerationEvent-batch side of the
classification rule: an event field equal to generation and a data field
that is a structured object containing a generation_details.generations
list. -/
def specIsEventBatch (chunk : Json) : Bool :=
  match chunk with
  | .obj kvs =>
    match findKV kvs "event", findKV kvs "data" with
    | some ev, some dat =>
      isStrEq ev "generation" &&
      (match dat with
       | .obj dkvs =>
         match findKV dkvs "generation_details" with
         | some (.obj gkvs) =>
           match findKV gkvs "generations" with
           | some (.arr _) => true
           | _ => false
         | _ => false
       | _ => false)
    | _, _ => false
  | _ => false

/-- Follows the spec's words for the DoneSignal side of the
classification rule: event equal to generation and data either the
literal token DONE or, in the tupled-array variant, a single-element
array containing DONE. -/
def specIsDone (chunk : Json) : Bool :=
  match chunk with
  | .obj kvs =>
    match findKV kvs "event", findKV kvs "data" with
    | some ev, some dat =>
      isStrEq ev "generation" &&
      (isStrEq dat "DONE" ||
       (match dat with
        | .arr [d] => isStrEq d "DONE"
        | _ => false))
    | _, _ => false
  | _ => false

/-- The classification the code actually implements on the event-batch
side: event equal to generation and data an object merely possessing a
generation_details key (the generations list is not required). -/
def codeIsEventBatch (chunk : Json) : Bool :=
  match chunk with
  | .obj kvs =>
    match findKV kvs "event", findKV kvs "data" with
    | some ev, some dat =>
      isStrEq ev "generation" &&
      (match dat with
       | .obj dkvs => dkvs.any (fun kv => kv.1 == "generation_details")
       | _ => false)
    | _, _ => false
  | _ => false

/-- The data-null TypeError case of the classifier: event checks pass
but the data field is the null literal, so the in-operator of
`isEventResponse` throws. -/
def codeIsThrown (chunk : Json) : Bool :=
  match chunk with
  | .obj kvs =>
    match findKV kvs "event", findKV kvs "data" with
    | some ev, some dat => isStrEq ev "generation" && (match dat with | .null => true | _ => false)
    | _, _ => false
  | _ => false

/-- Follows the amended claim's words for the DoneSignal side: event
equal to generation and data precisely the literal string DONE — the
single-element-array variant of `DoneResponseSchema` is not recognised
at runtime. -/
def amendedIsDone (chunk : Json) : Bool :=
  match chunk with
  | .obj kvs =>
    match findKV kvs "event", findKV kvs "data" with
    | some ev, some dat =>
      isStrEq ev "generation" && (match dat with | .str s => s == "DONE" | _ => false)
    | _, _ => false
  | _ => false

/-- Concatenation of a list of strings. -/
def joinS : List String → String
  | [] => ""
  | s :: rest => s ++ joinS rest

/-- Ids in order of first occurrence, skipping ids already seen. -/
def firstSeenEx (seen : List String) : List String → List String
  | [] => []
  | i :: rest =>
    if i ∈ seen then firstSeenEx seen rest
    else i :: firstSeenEx (seen ++ [i]) rest

/-- Ids in order of first occurrence. -/
def firstSeen (ids : List String) : List String :=
  firstSeenEx [] ids

/-- The registry entry the accumulation produces for one id: the first
event with that id, its content extended by the contents of all later
events with the same id.  The fallback branch is never reached for ids
that occur in the list. -/
def entryFor (i : String) (evs : List Generation) : Generation :=
  match evs.filter (fun g => g.id == i) with
  | [] => ⟨i, .user, "", none, ⟨none, 0, none⟩, none⟩
  | g1 :: rest => { g1 with content := g1.content ++ joinS (rest.map (fun g => g.content)) }

/-- Closed form of the registry produced by folding `onGenerationStep`
over an event list starting from registry `m`:  every existing entry has
the contents of matching events appended, and each unseen id that does
not name an Object.prototype property is appended at the end, in
first-occurrence order, carrying its aggregated entry; ids naming
Object.prototype properties never produce an entry. -/
def finalAcc (m : List (String × Generation)) (evs : List Generation) :
    List (String × Generation) :=
  m.map (fun kv =>
    (kv.1, { kv.2 with content :=
      kv.2.content ++ joinS ((evs.filter (fun g => g.id == kv.1)).map (fun g => g.content)) }))
  ++ (firstSeenEx (m.map (fun kv => kv.1) ++ protoKeys) (evs.map (fun g => g.id))).map
      (fun i => (i, entryFor i evs))

/-- Follows the spec's words for `finalize`: one ChatMessage per distinct
generation id, in first-seen id order, the role taken from the first
event of the id and the content being all fragments of the id
concatenated. -/
def specFinalize (evs : List Generation) : List ModelMessage :=
  (firstSeen (evs.map (fun g => g.id))).map (fun i =>
    ⟨(entryFor i evs).role, joinS ((evs.filter (fun g => g.id == i)).map (fun g => g.content))⟩)

/-- Messages returned by a successful `EinsteinDevModelClient.chat` call
as a function of the generation events delivered. -/
def einsteinMessagesOf (evs : List Generation) : List ModelMessage :=
  (objectValues (accumulate evs)).map (fun g => ⟨g.role, g.content⟩)

/-- Generation record with the fields the streaming examples use. -/
def mkGen (i : String) (r : Role) (c : String) : Generation :=
  ⟨i, r, c, none, ⟨none, 0, none⟩, none⟩

/-- The done sentinel chunk as the gateway sends it at runtime. -/
def doneChunkJ : Json :=
  .obj [("event", .str "generation"), ("data", .str "DONE")]

/-- The tupled-array done variant declared by `DoneResponseSchema`
(streaming-request.ts lines 31-34). -/
def tupleDoneChunkJ : Json :=
  .obj [("event", .str "generation"), ("data", .arr [.str "DONE"])]

/-- A generation element of the wire shape `GenerationSchema` accepts. -/
def genJson (i c : String) : Json :=
  .obj [("id", .str i), ("role", .str "assistant"), ("content", .str c),
        ("timestamp", .null),
        ("parameters", .obj [("finish_reason", .null), ("index", .num 0),
                             ("logprobs", .null)]),
        ("generation_safety_score", .null),
        ("generation_content_quality", .null),
        ("tool_invocations", .null)]

/-- A generation event chunk carrying the given generation elements. -/
def eventChunkJ (gens : List Json) : Json :=
  .obj [("event", .str "generation"),
        ("data", .obj [("id", .str "r1"),
                       ("generation_details", .obj [("generations", .arr gens)])])]

/-- Concrete stand-in for the external JSON.parse collaborator on the
payloads used in closed examples: parses the valid JSON text 1 and
rejects everything else — in particular the malformed text notjson, on
which JSON.parse throws. -/
def demoParse : String → Option Json := fun s =>
  if s = "1" then some (.num 1) else none

theorem getLast?_cons_form {α : Type} (a : α) (l : List α) :
    (a :: l).getLast? =
      match l.getLast? with
      | none => some a
      | some b => some b := by
  induction l generalizing a with
  | nil => rfl
  | cons b t ih =>
    rw [List.getLast?_cons_cons, ih b]
    cases h : t.getLast? <;> simp [ih, h]

theorem foldl_einsteinStep_error (trace : List Ev) : ∀ s : AggSt,
    (trace.foldl einsteinStep s).error =
      match (errorsOf trace).getLast? with
      | none => s.error
      | some e => some e := by
  induction trace with
  | nil => intro s; simp [errorsOf]
  | cons e rest ih =>
    intro s
    cases e with
    | error m =>
      have h1 : errorsOf (Ev.error m :: rest) = m :: errorsOf rest := by
        simp [errorsOf]
      rw [List.foldl_cons, ih, h1, getLast?_cons_form]
      cases h : (errorsOf rest).getLast? <;> simp [einsteinStep]
    | chunk c =>
      have h1 : errorsOf (Ev.chunk c :: rest) = errorsOf rest := by simp [errorsOf]
      rw [List.foldl_cons, ih, h1]
      cases h : (errorsOf rest).getLast? <;> simp [einsteinStep]
    | generation g =>
      have h1 : errorsOf (Ev.generation g :: rest) = errorsOf rest := by simp [errorsOf]
      rw [List.foldl_cons, ih, h1]
      cases h : (errorsOf rest).getLast? <;> simp [einsteinStep]
    | content c =>
      have h1 : errorsOf (Ev.content c :: rest) = errorsOf rest := by simp [errorsOf]
      rw [List.foldl_cons, ih, h1]
      cases h : (errorsOf rest).getLast? <;> simp [einsteinStep]
    | end_ =>
      have h1 : errorsOf (Ev.end_ :: rest) = errorsOf rest := by simp [errorsOf]
      rw [List.foldl_cons, ih, h1]
      cases h : (errorsOf rest).getLast? <;> simp [einsteinStep]

/-- C7: for every call to `OpenAIStreamingClient.chat` whose options omit
maxTokens, the outbound request body carries max_tokens 2048 inside
generation_settings (clients/streaming-client.ts lines 104 and 126). -/
theorem default_max_tokens_2048 (model : String) (params : List (String × Json))
    (messages : List ModelMessage) (temp : Option Int) :
    (buildRequest model params messages ⟨none, temp⟩).generation_settings.max_tokens = 2048 :=
  rfl

/-- C9: `LLMExpressModelClient.chat` sends a POST whose body is exactly
model, messages and stream false; a non-ok response yields a non-null
error naming the status text with null messages, and an ok response
yields a null error with the content of choices[0].message as the
messages value. -/
theorem llm_express_wire_contract (model : String) (messages : List ModelMessage)
    (resp : FetchResponse) :
    llmExpressRequest model messages = ⟨"POST", model, messages, false⟩ ∧
    (resp.ok = false →
      llmExpressChat resp = ⟨some ("Failed to chat: " ++ resp.statusText), none⟩) ∧
    (resp.ok = true → llmExpressChat resp = ⟨none, some resp.content⟩) := by
  refine ⟨rfl, ?_, ?_⟩ <;> intro h <;> simp [llmExpressChat, h]

/-- Witness for C9: both response branches at concrete inputs. -/
theorem llm_express_wire_contract_witness :
    llmExpressChat ⟨false, "Unauthorized", ""⟩ = ⟨some "Failed to chat: Unauthorized", none⟩ ∧
    llmExpressChat ⟨true, "OK", "Paris"⟩ = ⟨none, some "Paris"⟩ :=
  ⟨(llm_express_wire_contract "m" [] ⟨false, "Unauthorized", ""⟩).2.1 rfl,
   (llm_express_wire_contract "m" [] ⟨true, "OK", "Paris"⟩).2.2 rfl⟩

/-- C2 counterexample: a call during which two error notifications are
delivered returns the second error, not the first — the claim that the
first error wins is false on the code, whose onError callback overwrites
the captured error unconditionally. -/
theorem einstein_first_error_cex :
    errorsOf [Ev.error "boom1", Ev.error "boom2"] = ["boom1", "boom2"] ∧
    (einsteinChat [Ev.error "boom1", Ev.error "boom2"]).error ≠ some "boom1" := by
  exact ⟨rfl, by decide⟩

/-- C2 (amended): when two or more error notifications are delivered
during one `EinsteinDevModelClient.chat` call, the error field of the
returned result equals the last error delivered. -/
theorem einstein_last_error_wins (trace : List Ev) (e1 e2 : String) (rest : List String)
    (h : errorsOf trace = e1 :: e2 :: rest) :
    (einsteinChat trace).error = (errorsOf trace).getLast? := by
  have he := foldl_einsteinStep_error trace ⟨[], "", none⟩
  cases hx : (errorsOf trace).getLast? with
  | none =>
    rw [h] at hx
    simp at hx
  | some x =>
    rw [hx] at he
    simp [einsteinChat, he]

/-- Witness for C2: two errors delivered, result carries the last. -/
theorem einstein_last_error_wins_witness :
    (einsteinChat [Ev.error "boom1", Ev.error "boom2"]).error =
      (errorsOf [Ev.error "boom1", Ev.error "boom2"]).getLast? :=
  einstein_last_error_wins [Ev.error "boom1", Ev.error "boom2"] "boom1" "boom2" [] rfl

/-- C4: every `chat` result has exactly one of error and messages
non-null — the captured error with null messages when a failure was
delivered, else null error and non-null messages — for
`EinsteinDevModelClient.chat` and `LLMExpressModelClient.chat` alike. -/
theorem chat_result_exclusive (trace : List Ev) (resp : FetchResponse) :
    ((einsteinChat trace).error.isSome != (einsteinChat trace).messages.isSome) = true ∧
    (einsteinChat trace).error = (errorsOf trace).getLast? ∧
    ((llmExpressChat resp).error.isSome != (llmExpressChat resp).messages.isSome) = true ∧
    (llmExpressChat resp).error.isSome = !resp.ok := by
  have he := foldl_einsteinStep_error trace ⟨[], "", none⟩
  refine ⟨?_, ?_, ?_, ?_⟩
  · cases hx : (trace.foldl einsteinStep ⟨[], "", none⟩).error <;>
      simp [einsteinChat, hx]
  · cases hx : (errorsOf trace).getLast? <;> rw [hx] at he <;>
      simp [einsteinChat, he]
  · cases hok : resp.ok <;> simp [llmExpressChat, hok]
  · cases hok : resp.ok <;> simp [llmExpressChat, hok]

/-- C5 counterexample: the tupled-array done variant declared by
`DoneResponseSchema` is not recognised by the runtime classifier — the
chunk with data [DONE] satisfies the spec's DoneSignal clause yet is
classified Unrecognized, so the claimed equivalence fails. -/
theorem classify_tuple_done_cex :
    specIsDone tupleDoneChunkJ = true ∧
    classify tupleDoneChunkJ = ChunkClass.unrecognized ∧
    ¬ (classify tupleDoneChunkJ = ChunkClass.done ↔ specIsDone tupleDoneChunkJ = true) := by
  decide

/-- C5 (amended): the codec classifies a chunk as a GenerationEvent batch
exactly when event equals generation and data is a non-null object merely
possessing a generation_details field (a generations list is not
required); as DoneSignal exactly when event equals generation and data is
precisely the string DONE (the tupled-array variant is not recognised);
a chunk with event generation and null data makes the classifier throw;
and every other chunk is Unrecognized and dropped with only the chunk
notification, emitting no generation, content or error notification. -/
theorem classify_characterization (c : Json) :
    (classify c = ChunkClass.eventBatch ↔ codeIsEventBatch c = true) ∧
    (classify c = ChunkClass.done ↔ amendedIsDone c = true) ∧
    (classify c = ChunkClass.thrown ↔ codeIsThrown c = true) ∧
    (classify c = ChunkClass.unrecognized → processGeneration c = ([Ev.chunk c], false)) := by
  cases c with
  | str s =>
    simp [classify, isEventResponse, isDoneResponse, codeIsEventBatch, amendedIsDone,
      codeIsThrown, processGeneration]
  | num n =>
    simp [classify, isEventResponse, isDoneResponse, codeIsEventBatch, amendedIsDone,
      codeIsThrown, processGeneration]
  | bool b =>
    simp [classify, isEventResponse, isDoneResponse, codeIsEventBatch, amendedIsDone,
      codeIsThrown, processGeneration]
  | null =>
    simp [classify, isEventResponse, isDoneResponse, codeIsEventBatch, amendedIsDone,
      codeIsThrown, processGeneration]
  | arr l =>
    simp [classify, isEventResponse, isDoneResponse, codeIsEventBatch, amendedIsDone,
      codeIsThrown, processGeneration]
  | obj kvs =>
    rcases h1 : findKV kvs "event" with _ | ev
    · simp [classify, isEventResponse, isDoneResponse, codeIsEventBatch, amendedIsDone,
        codeIsThrown, processGeneration, h1]
    · rcases h2 : findKV kvs "data" with _ | dat
      · simp [classify, isEventResponse, isDoneResponse, codeIsEventBatch, amendedIsDone,
          codeIsThrown, processGeneration, h1, h2]
      · cases hev : isStrEq ev "generation" <;> rw [isStrEq.eq_def] at hev
        · simp [classify, isEventResponse, isDoneResponse, codeIsEventBatch, amendedIsDone,
            codeIsThrown, processGeneration, typeofIsObject, jsInE, isStrEq, h1, h2, hev]
        · cases dat with
          | str s =>
            cases hs : s == "DONE"
            · simp [classify, isEventResponse, isDoneResponse, codeIsEventBatch,
                amendedIsDone, codeIsThrown, processGeneration, typeofIsObject, isStrEq,
                h1, h2, hev, hs]
            · simp [classify, isEventResponse, isDoneResponse, codeIsEventBatch,
                amendedIsDone, codeIsThrown, processGeneration, typeofIsObject, isStrEq,
                h1, h2, hev, hs]
          | num n =>
            simp [classify, isEventResponse, isDoneResponse, codeIsEventBatch,
              amendedIsDone, codeIsThrown, processGeneration, typeofIsObject, isStrEq,
              h1, h2, hev]
          | bool b =>
            simp [classify, isEventResponse, isDoneResponse, codeIsEventBatch,
              amendedIsDone, codeIsThrown, processGeneration, typeofIsObject, isStrEq,
              h1, h2, hev]
          | null =>
            simp [classify, isEventResponse, isDoneResponse, codeIsEventBatch,
              amendedIsDone, codeIsThrown, processGeneration, typeofIsObject, jsInE,
              isStrEq, h1, h2, hev]
          | arr l2 =>
            simp [classify, isEventResponse, isDoneResponse, codeIsEventBatch,
              amendedIsDone, codeIsThrown, processGeneration, typeofIsObject, jsInE,
              isStrEq, h1, h2, hev]
          | obj dkvs =>
            cases hany : dkvs.any (fun kv => kv.1 == "generation_details")
            · simp [classify, isEventResponse, isDoneResponse, codeIsEventBatch,
                amendedIsDone, codeIsThrown, processGeneration, typeofIsObject, jsInE,
                isStrEq, h1, h2, hev, hany]
            · simp [classify, isEventResponse, isDoneResponse, codeIsEventBatch,
                amendedIsDone, codeIsThrown, processGeneration, typeofIsObject, jsInE,
                isStrEq, h1, h2, hev, hany]

/-- Witness for C5: an unrecognized chunk is dropped with only the chunk
notification. -/
theorem classify_characterization_witness :
    processGeneration tupleDoneChunkJ = ([Ev.chunk tupleDoneChunkJ], false) :=
  (classify_characterization tupleDoneChunkJ).2.2.2 (by decide)

theorem emitGenerations_no_terminal (elems : List Json) :
    (emitGenerations elems).1.countP isEndEv = 0 ∧
    (emitGenerations elems).1.countP isErrorEv = 0 := by
  induction elems with
  | nil => simp [emitGenerations]
  | cons e rest ih =>
    cases hz : zodGeneration e with
    | none => simp [emitGenerations, hz]
    | some g =>
      cases hc : (g.content == "") <;>
        simp [emitGenerations, hz, hc, isEndEv, isErrorEv, List.countP_cons,
          List.countP_append, ih.1, ih.2]

theorem processGeneration_counts (c : Json) (h : (processGeneration c).2 = false) :
    (processGeneration c).1.countP isEndEv = (if classify c = ChunkClass.done then 1 else 0) ∧
    (processGeneration c).1.countP isErrorEv = 0 := by
  unfold processGeneration at h ⊢
  unfold classify
  cases hie : isEventResponse c with
  | error u => rw [hie] at h; simp at h
  | ok b =>
    rw [hie] at h
    cases b with
    | true =>
      cases hg : getGenerations c with
      | error u => rw [hg] at h; simp at h
      | ok gensOpt =>
        rw [hg] at h
        rcases gensOpt with _ | j
        · simp [truthy, isEndEv, isErrorEv, List.countP_cons]
        · cases j with
          | arr elems =>
            simp [truthy, isEndEv, isErrorEv, List.countP_cons, List.countP_append,
              (emitGenerations_no_terminal elems).1, (emitGenerations_no_terminal elems).2]
          | null => simp [truthy, isEndEv, isErrorEv, List.countP_cons]
          | str s2 =>
            cases hs : (s2 == "") with
            | true => simp [truthy, hs, isEndEv, isErrorEv, List.countP_cons]
            | false => simp [truthy, hs] at h
          | num n =>
            cases hn : (n == 0) with
            | true => simp [truthy, hn, isEndEv, isErrorEv, List.countP_cons]
            | false => simp [truthy, hn] at h
          | bool b2 =>
            cases b2 with
            | false => simp [truthy, isEndEv, isErrorEv, List.countP_cons]
            | true => simp [truthy] at h
          | obj kvs2 => simp [truthy] at h
    | false =>
      cases hd : isDoneResponse c <;>
        simp [hd, isEndEv, isErrorEv, List.countP_cons, List.countP_append]

theorem runChunks_counts (chunks : List Json) (h : noThrow chunks = true) :
    (runChunks chunks).2 = false ∧
    (runChunks chunks).1.countP isEndEv = doneCount chunks ∧
    (runChunks chunks).1.countP isErrorEv = 0 := by
  induction chunks with
  | nil => simp [runChunks, doneCount]
  | cons c cs ih =>
    have hall : (processGeneration c).2 = false ∧ noThrow cs = true := by
      have h2 := h
      simp [noThrow, List.all_cons] at h2
      refine ⟨h2.1, ?_⟩
      simp [noThrow]
      exact h2.2
    obtain ⟨hr2, hend, herr⟩ := ih hall.2
    have hpc := processGeneration_counts c hall.1
    constructor
    · simp [runChunks, hall.1, hr2]
    constructor
    · simp [runChunks, hall.1, List.countP_append, hend, hpc.1, doneCount,
        List.countP_cons]
      omega
    · simp [runChunks, hall.1, List.countP_append, herr, hpc.2]

/-- C1 counterexample: when an exception occurs while opening or reading
the stream, onError is emitted but onEnd is not (zero end notifications,
not one); and when a DONE sentinel precedes a clean close, onEnd fires
twice, not exactly once. -/
theorem stream_error_no_end_cex :
    countEnds (chatTrace [] true) = 0 ∧
    countErrors (chatTrace [] true) = 1 ∧
    countEnds (chatTrace [doneChunkJ] false) = 2 := by
  decide

/-- C1 (amended): over any stream whose chunk processing does not throw,
one `OpenAIStreamingClient.chat` call emits onEnd once per DONE sentinel
plus once more when the stream closes cleanly — so exactly once for a
clean close without DONE, and twice when a DONE sentinel precedes a clean
close — while on a transport error onError is emitted exactly once as the
final notification and no onEnd follows it. -/
theorem chat_trace_terminal (chunks : List Json) (errored : Bool)
    (h : noThrow chunks = true) :
    countEnds (chatTrace chunks errored) = doneCount chunks + (if errored then 0 else 1) ∧
    countErrors (chatTrace chunks errored) = (if errored then 1 else 0) ∧
    (chatTrace chunks errored).getLast? =
      some (if errored then Ev.error "stream error" else Ev.end_) := by
  obtain ⟨hr2, hend, herr⟩ := runChunks_counts chunks h
  cases errored <;>
    simp [chatTrace, hr2, countEnds, countErrors, List.countP_append, hend, herr,
      isEndEv, isErrorEv, List.getLast?_concat]

/-- Witness for C1: a DONE sentinel followed by a clean close yields two
end notifications and the trace ends with an end notification. -/
theorem chat_trace_terminal_witness :
    noThrow [doneChunkJ] = true ∧
    (countEnds (chatTrace [doneChunkJ] false) =
        doneCount [doneChunkJ] + (if (false : Bool) then 0 else 1) ∧
      countErrors (chatTrace [doneChunkJ] false) = (if (false : Bool) then 1 else 0) ∧
      (chatTrace [doneChunkJ] false).getLast? =
        some (if (false : Bool) then Ev.error "stream error" else Ev.end_)) :=
  ⟨by decide, chat_trace_terminal [doneChunkJ] false (by decide)⟩

/-- C6 counterexample: a data line carrying malformed JSON next to an
event line is skipped (no chunk produced), but an error notification IS
emitted for it — `parseSSEData` catches the JSON.parse failure and calls
emit error — contradicting the claim that no error notification is
raised. -/
theorem sse_malformed_emits_error_cex :
    (parseSSEData demoParse "event: generation\ndata: notjson").1 = none ∧
    (parseSSEData demoParse "event: generation\ndata: notjson").2 = [Ev.error "sse parse error"] :=
  ⟨rfl, rfl⟩

/-- C6 (amended): a data line with malformed JSON in a record that also
carries an event line is skipped — `parseSSEData` returns null so the
stream loop continues and records before and after it are still
processed, the parser being stateless — but an error notification is
emitted for it; a record with no event line is skipped silently, and a
record whose payload parses yields its chunk with no error. -/
theorem sse_malformed_behavior (parse : String → Option Json) (s ev dat : String)
    (hscan : scanSSELines ((splitOnNl (trimChars s.data)).map String.mk) = (ev, dat)) :
    (ev ≠ "" → dat ≠ "" → parse dat = none →
      parseSSEData parse s = (none, [Ev.error "sse parse error"])) ∧
    (ev = "" → parseSSEData parse s = (none, [])) ∧
    (∀ j, ev ≠ "" → dat ≠ "" → parse dat = some j →
      parseSSEData parse s = (some ⟨ev, j⟩, [])) := by
  simp only [parseSSEData]
  rw [hscan]
  refine ⟨?_, ?_, ?_⟩
  · intro h1 h2 h3
    simp [h1, h2, h3]
  · intro h1
    simp [h1]
  · intro j h1 h2 h3
    simp [h1, h2, h3]

/-- Witness for C6: the three record shapes at concrete inputs. -/
theorem sse_malformed_behavior_witness :
    parseSSEData demoParse "event: generation\ndata: notjson" = (none, [Ev.error "sse parse error"]) ∧
    parseSSEData demoParse "data: notjson" = (none, []) ∧
    parseSSEData demoParse "event: generation\ndata: 1" = (some ⟨"generation", Json.num 1⟩, []) :=
  ⟨(sse_malformed_behavior demoParse "event: generation\ndata: notjson" "generation" "notjson"
      rfl).1 (by decide) (by decide) rfl,
   (sse_malformed_behavior demoParse "data: notjson" "" "notjson" rfl).2.1 rfl,
   (sse_malformed_behavior demoParse "event: generation\ndata: 1" "generation" "1"
      rfl).2.2 (Json.num 1) (by decide) (by decide) rfl⟩

theorem mem_of_mem_firstSeenEx : ∀ (l seen : List String) (i : String),
    i ∈ firstSeenEx seen l → i ∈ l := by
  intro l
  induction l with
  | nil => intro seen i h; simp [firstSeenEx] at h
  | cons j rest ih =>
    intro seen i h
    unfold firstSeenEx at h
    by_cases hj : j ∈ seen
    · rw [if_pos hj] at h
      exact List.mem_cons_of_mem j (ih seen i h)
    · rw [if_neg hj] at h
      rcases List.mem_cons.mp h with h1 | h2
      · exact h1 ▸ List.mem_cons_self j rest
      · exact List.mem_cons_of_mem j (ih (seen ++ [j]) i h2)

theorem not_seen_of_mem_firstSeenEx : ∀ (l seen : List String) (i : String),
    i ∈ firstSeenEx seen l → i ∉ seen := by
  intro l
  induction l with
  | nil => intro seen i h; simp [firstSeenEx] at h
  | cons j rest ih =>
    intro seen i h
    unfold firstSeenEx at h
    by_cases hj : j ∈ seen
    · rw [if_pos hj] at h
      exact ih seen i h
    · rw [if_neg hj] at h
      rcases List.mem_cons.mp h with h1 | h2
      · exact h1 ▸ hj
      · intro hmem
        exact ih (seen ++ [j]) i h2 (List.mem_append_left [j] hmem)

theorem mem_firstSeenEx_of_mem : ∀ (l seen : List String) (i : String),
    i ∈ l → i ∉ seen → i ∈ firstSeenEx seen l := by
  intro l
  induction l with
  | nil => intro seen i h; simp at h
  | cons j rest ih =>
    intro seen i h hns
    unfold firstSeenEx
    by_cases hj : j ∈ seen
    · rw [if_pos hj]
      rcases List.mem_cons.mp h with h1 | h2
      · exact absurd (h1 ▸ hj) hns
      · exact ih seen i h2 hns
    · rw [if_neg hj]
      rcases List.mem_cons.mp h with h1 | h2
      · exact h1 ▸ List.mem_cons_self j _
      · by_cases hij : i = j
        · exact hij ▸ List.mem_cons_self j _
        · refine List.mem_cons_of_mem j (ih (seen ++ [j]) i h2 ?_)
          intro hmem
          rcases List.mem_append.mp hmem with hm1 | hm2
          · exact hns hm1
          · exact hij (List.mem_singleton.mp hm2)

theorem finalAcc_nil (m : List (String × Generation)) : finalAcc m [] = m := by
  unfold finalAcc
  simp only [List.filter_nil, List.map_nil, joinS, String.append_empty, firstSeenEx,
    List.append_nil]
  have hfun : (fun (kv : String × Generation) =>
      (kv.1, { kv.2 with content := kv.2.content })) = fun (kv : String × Generation) => kv :=
    rfl
  rw [hfun, List.map_id']

theorem contains_eq_true_iff_mem {l : List String} {a : String} :
    l.contains a = true ↔ a ∈ l := by
  induction l with
  | nil => simp
  | cons b rest ih => simp [List.contains_cons, ih]

theorem firstSeenEx_seen_congr : ∀ (l seen seen' : List String),
    (∀ j ∈ l, (j ∈ seen ↔ j ∈ seen')) → firstSeenEx seen l = firstSeenEx seen' l := by
  intro l
  induction l with
  | nil => intro seen seen' h; rfl
  | cons i rest ih =>
    intro seen seen' h
    unfold firstSeenEx
    by_cases hi : i ∈ seen
    · rw [if_pos hi, if_pos ((h i (List.mem_cons_self _ _)).mp hi)]
      exact ih seen seen' (fun j hj => h j (List.mem_cons_of_mem _ hj))
    · rw [if_neg hi, if_neg (fun hx => hi ((h i (List.mem_cons_self _ _)).mpr hx))]
      congr 1
      apply ih
      intro j hj
      have hjj := h j (List.mem_cons_of_mem _ hj)
      simp [List.mem_append, hjj]

theorem finalAcc_step (m : List (String × Generation)) (g : Generation)
    (rest : List Generation) :
    finalAcc (onGenerationStep m g) rest = finalAcc m (g :: rest) := by
  by_cases hown : (m.any fun kv => kv.1 == g.id) = true
  · have hstep : onGenerationStep m g =
        m.map (fun kv =>
          if kv.1 == g.id then (kv.1, { kv.2 with content := kv.2.content ++ g.content })
          else kv) := by
      unfold onGenerationStep
      rw [if_pos (by simp [hown])]
    have hmem : g.id ∈ m.map (fun kv => kv.1) := by
      rcases List.any_eq_true.mp hown with ⟨kv, hkv, hbe⟩
      exact List.mem_map.mpr ⟨kv, hkv, beq_iff_eq.mp hbe⟩
    have hseen : g.id ∈ m.map (fun kv => kv.1) ++ protoKeys :=
      List.mem_append_left _ hmem
    rw [hstep]
    unfold finalAcc
    congr 1
    · rw [List.map_map]
      apply List.map_congr_left
      intro kv _
      by_cases hk : kv.1 = g.id
      · simp [Function.comp, hk, List.filter_cons, joinS, String.append_assoc]
      · simp [Function.comp, hk, Ne.symm hk, List.filter_cons]
    · have hkeys : (m.map (fun kv =>
          if kv.1 == g.id then (kv.1, { kv.2 with content := kv.2.content ++ g.content })
          else kv)).map (fun kv => kv.1) = m.map (fun kv => kv.1) := by
        rw [List.map_map]
        apply List.map_congr_left
        intro kv _
        by_cases hk : kv.1 = g.id <;> simp [Function.comp, hk]
      rw [hkeys, List.map_cons]
      show (firstSeenEx (m.map (fun kv => kv.1) ++ protoKeys)
          (List.map (fun x => x.id) rest)).map (fun i => (i, entryFor i rest)) =
        (firstSeenEx (m.map (fun kv => kv.1) ++ protoKeys)
          (g.id :: List.map (fun x => x.id) rest)).map (fun i => (i, entryFor i (g :: rest)))
      rw [firstSeenEx, if_pos hseen]
      apply List.map_congr_left
      intro i hi
      have hns : i ∉ m.map (fun kv => kv.1) ++ protoKeys :=
        not_seen_of_mem_firstSeenEx _ _ _ hi
      have hne : i ≠ g.id := fun he => hns (he ▸ hseen)
      have hbe : ¬((g.id == i) = true) := by simp [Ne.symm hne]
      simp [entryFor, List.filter_cons, hbe]
  · by_cases hproto : g.id ∈ protoKeys
    · have hall : ∀ kv ∈ m, kv.1 ≠ g.id := by
        intro kv hkv heq
        exact hown (List.any_eq_true.mpr ⟨kv, hkv, beq_iff_eq.mpr heq⟩)
      have hstep : onGenerationStep m g = m := by
        unfold onGenerationStep
        rw [if_pos (by
          rw [Bool.or_eq_true]
          exact Or.inr (contains_eq_true_iff_mem.mpr hproto))]
        have hid : ∀ kv ∈ m, (if kv.1 == g.id then
            (kv.1, { kv.2 with content := kv.2.content ++ g.content }) else kv) = kv := by
          intro kv hkv
          simp [hall kv hkv]
        rw [List.map_congr_left hid, List.map_id']
      have hseen : g.id ∈ m.map (fun kv => kv.1) ++ protoKeys :=
        List.mem_append_right _ hproto
      rw [hstep]
      unfold finalAcc
      congr 1
      · apply List.map_congr_left
        intro kv hkv
        have hbe : ¬((g.id == kv.1) = true) := by simp [Ne.symm (hall kv hkv)]
        simp [List.filter_cons, hbe]
      · rw [List.map_cons]
        show (firstSeenEx (m.map (fun kv => kv.1) ++ protoKeys)
            (List.map (fun x => x.id) rest)).map (fun i => (i, entryFor i rest)) =
          (firstSeenEx (m.map (fun kv => kv.1) ++ protoKeys)
            (g.id :: List.map (fun x => x.id) rest)).map (fun i => (i, entryFor i (g :: rest)))
        rw [firstSeenEx, if_pos hseen]
        apply List.map_congr_left
        intro i hi
        have hns : i ∉ m.map (fun kv => kv.1) ++ protoKeys :=
          not_seen_of_mem_firstSeenEx _ _ _ hi
        have hne : i ≠ g.id := fun he => hns (he ▸ hseen)
        have hbe : ¬((g.id == i) = true) := by simp [Ne.symm hne]
        simp [entryFor, List.filter_cons, hbe]
    · have hall : ∀ kv ∈ m, kv.1 ≠ g.id := by
        intro kv hkv heq
        exact hown (List.any_eq_true.mpr ⟨kv, hkv, beq_iff_eq.mpr heq⟩)
      have hstep : onGenerationStep m g = m ++ [(g.id, g)] := by
        unfold onGenerationStep
        rw [if_neg ?_]
        simp only [Bool.or_eq_true, not_or]
        exact ⟨hown, fun hc => hproto (contains_eq_true_iff_mem.mp hc)⟩
      have hnotmem : g.id ∉ m.map (fun kv => kv.1) := by
        intro hmem
        rcases List.mem_map.mp hmem with ⟨kv, hkv, heq⟩
        exact hall kv hkv heq
      have hnotseen : g.id ∉ m.map (fun kv => kv.1) ++ protoKeys := by
        intro hx
        rcases List.mem_append.mp hx with h1 | h2
        · exact hnotmem h1
        · exact hproto h2
      rw [hstep]
      unfold finalAcc
      rw [List.map_append, List.map_append, List.map_cons]
      show (m.map _ ++ [_]) ++ _ = _
      rw [List.append_assoc, List.singleton_append]
      congr 1
      · apply List.map_congr_left
        intro kv hkv
        have hbe : ¬((g.id == kv.1) = true) := by simp [Ne.symm (hall kv hkv)]
        simp [List.filter_cons, hbe]
      · show _ :: (firstSeenEx ((m.map (fun kv => kv.1) ++ [g.id]) ++ protoKeys)
            (List.map (fun x => x.id) rest)).map (fun i => (i, entryFor i rest)) =
          (firstSeenEx (m.map (fun kv => kv.1) ++ protoKeys)
            (g.id :: List.map (fun x => x.id) rest)).map (fun i => (i, entryFor i (g :: rest)))
        rw [firstSeenEx, if_neg hnotseen, List.map_cons]
        have hsc : firstSeenEx ((m.map (fun kv => kv.1) ++ [g.id]) ++ protoKeys)
              (List.map (fun x => x.id) rest) =
            firstSeenEx ((m.map (fun kv => kv.1) ++ protoKeys) ++ [g.id])
              (List.map (fun x => x.id) rest) := by
          apply firstSeenEx_seen_congr
          intro j _
          simp only [List.mem_append, List.mem_singleton]
          tauto
        rw [hsc]
        congr 1
        · have hbe : (g.id == g.id) = true := by simp
          simp [entryFor, List.filter_cons, hbe, joinS]
        · apply List.map_congr_left
          intro i hi
          have hns : i ∉ (m.map (fun kv => kv.1) ++ protoKeys) ++ [g.id] :=
            not_seen_of_mem_firstSeenEx _ _ _ hi
          have hne : i ≠ g.id := by
            intro he
            exact hns (List.mem_append_right _ (he ▸ List.mem_singleton.mpr rfl))
          have hbe : ¬((g.id == i) = true) := by simp [Ne.symm hne]
          simp [entryFor, List.filter_cons, hbe]

theorem foldl_onGenerationStep_closed (evs : List Generation) : ∀ m,
    evs.foldl onGenerationStep m = finalAcc m evs := by
  induction evs with
  | nil => intro m; rw [List.foldl_nil, finalAcc_nil]
  | cons g rest ih =>
    intro m
    rw [List.foldl_cons, ih, finalAcc_step]

theorem accumulate_closed (evs : List Generation) :
    accumulate evs =
      (firstSeenEx protoKeys (evs.map (fun x => x.id))).map (fun i => (i, entryFor i evs)) := by
  have h := foldl_onGenerationStep_closed evs []
  rw [accumulate, h]
  unfold finalAcc
  simp

theorem findEntry_graph (l : List String) (f : String → Generation) (j : String) :
    findEntry (l.map (fun i => (i, f i))) j =
      if j ∈ l then some (f j) else none := by
  induction l with
  | nil => simp [findEntry]
  | cons i rest ih =>
    by_cases hj : j = i
    · subst hj
      simp [findEntry, List.find?_cons]
    · unfold findEntry at ih ⊢
      rw [List.map_cons, List.find?_cons]
      have hbe : ((i, f i).1 == j) = false := by simp [Ne.symm hj]
      rw [hbe, ih]
      simp [hj]

/-- C3 counterexample: two events sharing the id toString, with
fragments Hel and lo, produce NO final message for that id at all — the
in-operator check of onGeneration finds toString on the prototype chain
of the registry object at the very first event, takes the append branch,
and never creates an own property, so the claimed concatenated message
does not exist. -/
theorem proto_id_no_message_cex :
    findEntry (accumulate [mkGen "toString" .assistant "Hel", mkGen "toString" .assistant "lo"])
        "toString" = none ∧
    einsteinMessagesOf [mkGen "toString" .assistant "Hel", mkGen "toString" .assistant "lo"] =
      [] := by
  decide

/-- C3 (amended): for a sequence of generation events sharing one id,
when the id does not name an Object.prototype property the accumulated
entry holds the concatenation of all content fragments in delivery order
(later fragments appended, never substituted); when the id names an
Object.prototype property, no entry is ever created and no final message
is produced for it. -/
theorem accumulator_append_law (i : String) (evs : List Generation)
    (h1 : evs ≠ []) (h2 : ∀ g ∈ evs, g.id = i) :
    (i ∉ protoKeys →
      (findEntry (accumulate evs) i).map (fun g => g.content) =
        some (joinS (evs.map (fun g => g.content)))) ∧
    (i ∈ protoKeys → findEntry (accumulate evs) i = none) := by
  rw [accumulate_closed, findEntry_graph]
  constructor
  · intro hp
    cases evs with
    | nil => exact absurd rfl h1
    | cons g0 rest =>
      have hid : g0.id = i := h2 g0 (List.mem_cons_self _ _)
      have hmem : i ∈ firstSeenEx protoKeys ((g0 :: rest).map fun x => x.id) := by
        apply mem_firstSeenEx_of_mem
        · rw [List.map_cons, hid]
          exact List.mem_cons_self _ _
        · exact hp
      rw [if_pos hmem]
      have hfilter : (g0 :: rest).filter (fun g => g.id == i) = g0 :: rest :=
        List.filter_eq_self.mpr (fun g hg => by simp [h2 g hg])
      unfold entryFor
      rw [hfilter]
      simp [joinS]
  · intro hp
    rw [if_neg (fun hmem => not_seen_of_mem_firstSeenEx _ _ _ hmem hp)]

/-- Witness for C3: the happy-path fragments Hel and lo concatenate to
Hello for an ordinary id, while a prototype-named id yields no entry. -/
theorem accumulator_append_law_witness :
    ((findEntry (accumulate [mkGen "g1" .assistant "Hel", mkGen "g1" .assistant "lo"]) "g1").map
        (fun g => g.content) =
      some (joinS ([mkGen "g1" .assistant "Hel", mkGen "g1" .assistant "lo"].map
        (fun g => g.content)))) ∧
    findEntry (accumulate [mkGen "valueOf" .assistant "a", mkGen "valueOf" .assistant "b"])
      "valueOf" = none :=
  ⟨(accumulator_append_law "g1" [mkGen "g1" .assistant "Hel", mkGen "g1" .assistant "lo"]
      (by decide) (by decide)).1 (by decide),
   (accumulator_append_law "valueOf"
      [mkGen "valueOf" .assistant "a", mkGen "valueOf" .assistant "b"]
      (by decide) (by decide)).2 (by decide)⟩

theorem objectValues_no_index (m : List (String × Generation))
    (h : ∀ kv ∈ m, arrayIndexOf kv.1 = none) :
    objectValues m = m.map (fun kv => kv.2) := by
  unfold objectValues
  have h1 : m.filterMap (fun kv => (arrayIndexOf kv.1).map (fun n => (n, kv.2))) = [] := by
    rw [List.filterMap_eq_nil_iff]
    intro kv hkv
    rw [h kv hkv]
    rfl
  have h2 : m.filter (fun kv => (arrayIndexOf kv.1).isNone) = m := by
    rw [List.filter_eq_self]
    intro kv hkv
    rw [h kv hkv]
    rfl
  rw [h1, h2]
  simp [sortByKey]

/-- C8 counterexample: with the numeric-string ids 1 then 0, the
messages of a successful call come back in ascending numeric key order
(0 before 1), not in first-occurrence order — `Object.values` lists
array-index keys numerically first. -/
theorem numeric_id_order_cex :
    einsteinMessagesOf [mkGen "1" .assistant "a", mkGen "0" .assistant "b"] =
      [⟨Role.assistant, "b"⟩, ⟨Role.assistant, "a"⟩] ∧
    specFinalize [mkGen "1" .assistant "a", mkGen "0" .assistant "b"] =
      [⟨Role.assistant, "a"⟩, ⟨Role.assistant, "b"⟩] ∧
    einsteinMessagesOf [mkGen "1" .assistant "a", mkGen "0" .assistant "b"] ≠
      specFinalize [mkGen "1" .assistant "a", mkGen "0" .assistant "b"] := by
  decide

/-- C8 (amended): when no accumulated generation id is a canonical
array-index string and no id names an Object.prototype property, the
returned messages are exactly one per distinct id, ordered by first
occurrence of the id, carrying the first event's role and the
concatenated content; without these restrictions the ordering claim
fails — with ids 1 then 0 the messages come back 0 then 1, array-index
keys being enumerated in ascending numeric order ahead of insertion
order, as the counterexample exhibits. -/
theorem finalize_first_seen_order (evs : List Generation)
    (hidx : ∀ g ∈ evs, arrayIndexOf g.id = none)
    (hproto : ∀ g ∈ evs, g.id ∉ protoKeys) :
    einsteinMessagesOf evs = specFinalize evs := by
  unfold einsteinMessagesOf
  rw [accumulate_closed]
  have hfs : firstSeenEx protoKeys (evs.map fun x => x.id) =
      firstSeen (evs.map fun x => x.id) := by
    unfold firstSeen
    apply firstSeenEx_seen_congr
    intro j hj
    rcases List.mem_map.mp hj with ⟨g, hg, rfl⟩
    simp [hproto g hg]
  rw [hfs]
  have hkeys : ∀ kv ∈ (firstSeen (evs.map fun x => x.id)).map
      (fun i => (i, entryFor i evs)), arrayIndexOf kv.1 = none := by
    intro kv hkv
    rcases List.mem_map.mp hkv with ⟨i, hi, rfl⟩
    have hmem : i ∈ evs.map (fun x => x.id) := mem_of_mem_firstSeenEx _ _ _ hi
    rcases List.mem_map.mp hmem with ⟨g, hg, rfl⟩
    exact hidx g hg
  rw [objectValues_no_index _ hkeys, List.map_map, List.map_map]
  unfold specFinalize
  apply List.map_congr_left
  intro i hi
  have hmem : i ∈ evs.map (fun x => x.id) :=
    mem_of_mem_firstSeenEx _ _ _ (by simpa [firstSeen] using hi)
  rcases List.mem_map.mp hmem with ⟨g, hg, hgid⟩
  cases hf : evs.filter (fun x => x.id == i) with
  | nil =>
    have hgm : g ∈ evs.filter (fun x => x.id == i) :=
      List.mem_filter.mpr ⟨hg, by simp [hgid]⟩
    rw [hf] at hgm
    simp at hgm
  | cons gh rest2 =>
    have hef : entryFor i evs =
        { gh with content := gh.content ++ joinS (rest2.map (fun x => x.content)) } := by
      unfold entryFor
      rw [hf]
    simp [Function.comp, hef, hf, joinS]

/-- Witness for C8: ids that are neither array-index strings nor
Object.prototype names come back in first-seen order with concatenated
content. -/
theorem finalize_first_seen_order_witness :
    einsteinMessagesOf
        [mkGen "a1" .assistant "Hel", mkGen "a1" .assistant "lo", mkGen "b2" .user "x"] =
      specFinalize
        [mkGen "a1" .assistant "Hel", mkGen "a1" .assistant "lo", mkGen "b2" .user "x"] :=
  finalize_first_seen_order
    [mkGen "a1" .assistant "Hel", mkGen "a1" .assistant "lo", mkGen "b2" .user "x"]
    (by decide) (by decide)
